import Mathlib

/-!
Verification of the drawrs image-to-paths core against its specification.

The Rust sources are embedded shallowly:
* 16-bit grayscale images (ImageBuffer of Luma u16) become `Grid`: a width, a
  height and a total intensity function; intensities are natural numbers.
* f64 arithmetic is modelled by exact rational arithmetic; the f64 square root
  used by the Sauvola threshold is kept as an explicit function parameter.
* Rust panics (out-of-bounds indexing, channel access beyond a pixel with a
  single channel) are modelled by Option, with `none` marking the panic.
-/

namespace Drawrs

/-- A width x height grid of unsigned integer samples.  `pix x y` is the sample
at column x, row y; only coordinates with x < width and y < height are
meaningful. -/
structure Grid where
  width : Nat
  height : Nat
  pix : Nat → Nat → Nat

/-- Row-major traversal of all pixels, as produced by ImageBuffer pixels(). -/
def Grid.pixelList (g : Grid) : List Nat :=
  (List.range g.height).flatMap (fun y => (List.range g.width).map (fun x => g.pix x y))

/-- Bounds-checked pixel access; `none` models the panic of get_pixel on
out-of-range coordinates. -/
def Grid.getPixel? (g : Grid) (x y : Nat) : Option Nat :=
  if x < g.width ∧ y < g.height then some (g.pix x y) else none

/-- Channel access on a Luma pixel (a one-channel pixel): index 0 yields the
sample, any other index is out of bounds and panics, modelled by `none`. -/
def lumaChannel (p : Nat) (c : Nat) : Option Nat :=
  if c = 0 then some p else none

/-- The f64-to-u16 cast: truncation toward zero, saturating at 0 and 65535. -/
def ratToU16 (q : ℚ) : Nat :=
  min q.floor.toNat 65535

/-- calculate_window_size: clamp(round(0.05 * min(width, height)), 5, 50).
The f32 constant 0.05 is modelled by the rational 1/20; rounding m/20 half
away from zero on a nonnegative m equals the integer division (m + 10) / 20. -/
def calculate_window_size (g : Grid) : Nat :=
  min (max ((min g.width g.height + 10) / 20) 5) 50

/-- The list [-ws, ..., ws] of window offsets, in ascending order. -/
def windowOffsets (ws : Nat) : List Int :=
  (List.range (2 * ws + 1)).map (fun i => (i : Int) - (ws : Int))

/-- Minimum intensity over the (2 ws + 1)-square window centred at (x, y),
scanning rows dy and columns dx with in-bounds checks; the accumulator starts
at 65535 (u16 MAX), exactly as in the source. -/
def windowMinAt (g : Grid) (ws : Nat) (x y : Nat) : Nat :=
  (windowOffsets ws).foldl (fun acc dy =>
    (windowOffsets ws).foldl (fun acc2 dx =>
      let nx : Int := (x : Int) + dx
      let ny : Int := (y : Int) + dy
      if 0 ≤ nx ∧ 0 ≤ ny ∧ nx < (g.width : Int) ∧ ny < (g.height : Int) then
        min acc2 (g.pix nx.toNat ny.toNat)
      else acc2) acc) 65535

/-- Maximum intensity over the same window; the accumulator starts at 0
(u16 MIN), exactly as in the source. -/
def windowMaxAt (g : Grid) (ws : Nat) (x y : Nat) : Nat :=
  (windowOffsets ws).foldl (fun acc dy =>
    (windowOffsets ws).foldl (fun acc2 dx =>
      let nx : Int := (x : Int) + dx
      let ny : Int := (y : Int) + dy
      if 0 ≤ nx ∧ 0 ≤ ny ∧ nx < (g.width : Int) ∧ ny < (g.height : Int) then
        max acc2 (g.pix nx.toNat ny.toNat)
      else acc2) acc) 0

/-- The min image built by the first pass of calculate_wolf_threshold. -/
def wolfMinImage (g : Grid) : Grid :=
  ⟨g.width, g.height, fun x y => windowMinAt g (calculate_window_size g) x y⟩

/-- The max image built by the first pass of calculate_wolf_threshold. -/
def wolfMaxImage (g : Grid) : Grid :=
  ⟨g.width, g.height, fun x y => windowMaxAt g (calculate_window_size g) x y⟩

/-- One step of the contrast accumulation loop of calculate_wolf_threshold.
The source iterates over pixels (not enumerate_pixels), so each loop iteration
evaluates pixel[0] and pixel[1]; pixel[1] reads channel 1 of a one-channel
Luma pixel.  The min and max images are then indexed at those two values as if
they were coordinates. -/
def wolfStep (g : Grid) (acc : Option (ℚ × ℚ)) (p : Nat) : Option (ℚ × ℚ) :=
  match acc with
  | none => none
  | some s =>
    match lumaChannel p 0, lumaChannel p 1 with
    | some px, some py =>
      match (wolfMinImage g).getPixel? px py, (wolfMaxImage g).getPixel? px py with
      | some mn, some mx =>
        let contrast : ℚ := (mx : ℚ) - (mn : ℚ)
        some (s.1 + contrast * (p : ℚ), s.2 + contrast)
      | _, _ => none
    | _, _ => none

/-- calculate_wolf_threshold.  After the min/max window pass, the contrast
accumulation loop runs over all pixels; if the total weight is positive the
threshold is k * contrast_sum / weight_sum with k = 1/2, otherwise 32768. -/
def calculate_wolf_threshold (g : Grid) : Option Nat :=
  match g.pixelList.foldl (wolfStep g) (some (0, 0)) with
  | none => none
  | some s =>
    if 0 < s.2 then some (ratToU16 (s.1 / s.2 * (1/2))) else some 32768

/-- The integral (inclusive 2D prefix) table of intensities, written with the
same inclusion-exclusion recurrence as the source loop. -/
def integralAt (g : Grid) : Nat → Nat → Int
  | 0, 0 => g.pix 0 0
  | x+1, 0 => g.pix (x+1) 0 + integralAt g x 0
  | 0, y+1 => g.pix 0 (y+1) + integralAt g 0 y
  | x+1, y+1 =>
      g.pix (x+1) (y+1) + integralAt g x (y+1) + integralAt g (x+1) y - integralAt g x y
  termination_by x y => (x, y)

/-- The integral table of squared intensities. -/
def integralSqAt (g : Grid) : Nat → Nat → Int
  | 0, 0 => g.pix 0 0 * g.pix 0 0
  | x+1, 0 => g.pix (x+1) 0 * g.pix (x+1) 0 + integralSqAt g x 0
  | 0, y+1 => g.pix 0 (y+1) * g.pix 0 (y+1) + integralSqAt g 0 y
  | x+1, y+1 =>
      g.pix (x+1) (y+1) * g.pix (x+1) (y+1) + integralSqAt g x (y+1) + integralSqAt g (x+1) y
        - integralSqAt g x y
  termination_by x y => (x, y)

/-- The half-open range [a, b) as a list, empty when b ≤ a; this is the Rust
range a..b on unsigned integers (the source computes b by a subtraction that
bottoms out, panicking in debug builds; the observable panic that decides the
claims below is the median index on the resulting empty list). -/
def rangeFromTo (a b : Nat) : List Nat :=
  (List.range (b - a)).map (a + ·)

/-- The Sauvola per-window threshold value at window centre (x, y), given the
square-root function of the floating-point unit. -/
def sauvolaValueAt (sqrtF : ℚ → ℚ) (g : Grid) (ws x y : Nat) : Nat :=
  let x0 := x - ws
  let y0 := y - ws
  let x1 := x + ws
  let y1 := y + ws
  let area : ℚ := ((x1 - x0) * (y1 - y0) : Nat)
  let s : ℚ := ((integralAt g x1 y1 - integralAt g x1 y0
      - integralAt g x0 y1 + integralAt g x0 y0 : Int) : ℚ)
  let ssq : ℚ := ((integralSqAt g x1 y1 - integralSqAt g x1 y0
      - integralSqAt g x0 y1 + integralSqAt g x0 y0 : Int) : ℚ)
  let mean := s / area
  let variance := ssq / area - mean * mean
  let stdDev := sqrtF variance
  ratToU16 (mean * (1 + (1/2) * (stdDev / 128 - 1)))

/-- calculate_sauvola_threshold: collect the window threshold values over the
interior, sort, and take the middle element; indexing an empty collection is
the panic, modelled by `none`. -/
def calculate_sauvola_threshold (sqrtF : ℚ → ℚ) (g : Grid) : Option Nat :=
  let ws := calculate_window_size g
  let tv := (rangeFromTo ws (g.height - ws)).flatMap (fun y =>
    (rangeFromTo ws (g.width - ws)).map (fun x => sauvolaValueAt sqrtF g ws x y))
  let sorted := tv.insertionSort (· ≤ ·)
  sorted[sorted.length / 2]?

/-- The Bernsen local threshold at (x, y): the midpoint of the window min and
max, truncated to u16. -/
def bernsenValueAt (g : Grid) (x y : Nat) : Nat :=
  ratToU16 (((windowMinAt g 15 x y : ℚ) + (windowMaxAt g 15 x y : ℚ)) / 2)

/-- calculate_bernsen_threshold: fixed window half-size 15, median of the local
midpoint thresholds over the interior; again `none` is the empty-median panic. -/
def calculate_bernsen_threshold (g : Grid) : Option Nat :=
  let tv := (rangeFromTo 15 (g.height - 15)).flatMap (fun y =>
    (rangeFromTo 15 (g.width - 15)).map (fun x => bernsenValueAt g x y))
  let sorted := tv.insertionSort (· ≤ ·)
  sorted[sorted.length / 2]?

/-- An integer point, as in utils/geometry.rs. -/
structure Point where
  x : Int
  y : Int
deriving DecidableEq

/-- The i32 wrap-around of an integer: the representative of its class modulo
2^32 lying in [-2^31, 2^31).  Release builds of the source reduce every i32
operation through this map; debug builds panic whenever it is not the
identity. -/
def wrap32 (a : Int) : Int :=
  (a + 2147483648) % 4294967296 - 2147483648

/-- Point::distance_squared with the exact integer value.  It agrees with the
i32 computation of the source exactly when no intermediate wraps, i.e. on
coordinate differences up to 46340 in magnitude with the sum of squares below
2^31; `distance_squared_i32` below is the release-build semantics on all
inputs. -/
def Point.distance_squared (p q : Point) : Int :=
  (p.x - q.x) * (p.x - q.x) + (p.y - q.y) * (p.y - q.y)

/-- Point::distance_squared as compiled in release mode: every i32 subtraction,
multiplication and addition wraps. -/
def distance_squared_i32 (p q : Point) : Int :=
  wrap32 (wrap32 (wrap32 (p.x - q.x) * wrap32 (p.x - q.x)) +
    wrap32 (wrap32 (p.y - q.y) * wrap32 (p.y - q.y)))

/-- Coordinates small enough (at most 16383 in magnitude) that every i32
intermediate of a distance computation between two such points is exact:
differences stay within 32766 and the sum of the two squares below 2^31. -/
def Bounded16 (p : Point) : Prop :=
  -16383 ≤ p.x ∧ p.x ≤ 16383 ∧ -16383 ≤ p.y ∧ p.y ≤ 16383

instance Bounded16.decidable : DecidablePred Bounded16 := fun p => by
  unfold Bounded16
  infer_instance

/-- The histogram built by the thresholding loops: the number of pixels with
value v. -/
def histCount (pixels : List Nat) (v : Nat) : Nat :=
  pixels.count v

/-- Pixels counted into class 0 (value at most t) by
calculate_class_statistics. -/
def otsuCount0 (pixels : List Nat) (t : Nat) : Nat :=
  ∑ i ∈ Finset.range 65536, if i ≤ t then histCount pixels i else 0

/-- Pixels counted into class 1 (value above t). -/
def otsuCount1 (pixels : List Nat) (t : Nat) : Nat :=
  ∑ i ∈ Finset.range 65536, if i ≤ t then 0 else histCount pixels i

/-- Intensity sum of class 0. -/
def otsuSum0 (pixels : List Nat) (t : Nat) : Nat :=
  ∑ i ∈ Finset.range 65536, if i ≤ t then i * histCount pixels i else 0

/-- Intensity sum of class 1. -/
def otsuSum1 (pixels : List Nat) (t : Nat) : Nat :=
  ∑ i ∈ Finset.range 65536, if i ≤ t then 0 else i * histCount pixels i

/-- calculate_class_statistics: the pair of class weights followed by the two
class mean intensities, with empty classes getting mean 0. -/
def calculate_class_statistics (pixels : List Nat) (t : Nat) (total : Nat) :
    ℚ × ℚ × ℚ × ℚ :=
  ((otsuCount0 pixels t : ℚ) / (total : ℚ),
   (otsuCount1 pixels t : ℚ) / (total : ℚ),
   if 0 < otsuCount0 pixels t then (otsuSum0 pixels t : ℚ) / (otsuCount0 pixels t : ℚ) else 0,
   if 0 < otsuCount1 pixels t then (otsuSum1 pixels t : ℚ) / (otsuCount1 pixels t : ℚ) else 0)

/-- One iteration of the Otsu threshold search: when both classes are nonempty
and the between-class variance w0 * w1 * (mu0 - mu1)^2 strictly exceeds the
best so far, the candidate threshold t and its variance replace the state. -/
def otsuStep (pixels : List Nat) (total : Nat) (st : Nat × ℚ) (t : Nat) : Nat × ℚ :=
  if 0 < (calculate_class_statistics pixels t total).1 ∧
      0 < (calculate_class_statistics pixels t total).2.1 ∧
      st.2 < (calculate_class_statistics pixels t total).1 *
        (calculate_class_statistics pixels t total).2.1 *
        ((calculate_class_statistics pixels t total).2.2.1 -
          (calculate_class_statistics pixels t total).2.2.2) ^ 2 then
    (t, (calculate_class_statistics pixels t total).1 *
        (calculate_class_statistics pixels t total).2.1 *
        ((calculate_class_statistics pixels t total).2.2.1 -
          (calculate_class_statistics pixels t total).2.2.2) ^ 2)
  else st

/-- calculate_otsu_threshold: scan all 65536 candidate thresholds, keeping the
first one attaining the maximal between-class variance. -/
def calculate_otsu_threshold (g : Grid) : Nat :=
  ((List.range 65536).foldl (otsuStep g.pixelList (g.width * g.height)) (0, 0)).1

/-- The per-pixel binarization of process_image: 255 where the intensity
strictly exceeds the threshold, 0 otherwise (same dimensions as the source). -/
def binarize (g : Grid) (t : Nat) : Grid :=
  ⟨g.width, g.height, fun x y => if t < g.pix x y then 255 else 0⟩

/-- The indices visited by (0..n).step_by(st): the multiples of st below n, in
ascending order. -/
def stepIndices (n st : Nat) : List Nat :=
  (List.range n).filter (fun i => i % st == 0)

/-- get_black_pixels_adaptive: walk the sampled coordinates (x fastest) and
keep the points whose sample is 0. -/
def get_black_pixels_adaptive (g : Grid) (st : Nat) : List Point :=
  ((stepIndices g.height st).flatMap (fun y =>
      (stepIndices g.width st).map (fun x => (x, y)))).filterMap
    (fun c => if g.pix c.1 c.2 = 0 then some (Point.mk (c.1 : Int) (c.2 : Int)) else none)

/-- A 2 x n grid whose rows are all (10, 60000): half the pixels at intensity
10 and half at 60000. -/
def twoLevelGrid (n : Nat) : Grid :=
  ⟨2, n, fun x _ => if x = 0 then 10 else 60000⟩

/-- A constant-intensity grid. -/
def uniformGrid (w h v : Nat) : Grid :=
  ⟨w, h, fun _ _ => v⟩

/-- A 2 x 1 grid with the two pixel values 3 and 5. -/
def twoPixelGrid : Grid :=
  ⟨2, 1, fun x _ => 3 + 2 * x⟩

/-- The (y, x) ordering used by find_connected_components to sort starting
points deterministically (sort_by_key on the pair (p.y, p.x)). -/
def pointLe (p q : Point) : Prop :=
  p.y < q.y ∨ (p.y = q.y ∧ p.x ≤ q.x)

instance pointLe.decidableRel : DecidableRel pointLe := fun p q => by
  unfold pointLe
  infer_instance

instance pointLe.isTotal : IsTotal Point pointLe :=
  ⟨fun p q => by unfold pointLe; omega⟩

instance pointLe.isTrans : IsTrans Point pointLe :=
  ⟨fun p q r hpq hqr => by unfold pointLe at *; omega⟩

/-- The descending-length ordering used for the final sort of the lines
(sort_by_key on Reverse(line.len())). -/
def lenDescLe (l1 l2 : List Point) : Prop :=
  l2.length ≤ l1.length

instance lenDescLe.decidableRel : DecidableRel lenDescLe := fun l1 l2 => by
  unfold lenDescLe
  infer_instance

/-- The grid cell of a point: both coordinates divided by the cell size with
the Rust i32 division, which truncates toward zero. -/
def cellKey (gsz : Int) (p : Point) : Int × Int :=
  (p.x.tdiv gsz, p.y.tdiv gsz)

/-- build_spatial_index, viewed as the cell-to-bucket map it constructs: the
bucket of a cell holds exactly the input points falling in that cell. -/
def build_spatial_index (points : List Point) (gsz : Int) : Int × Int → List Point :=
  fun c => points.filter (fun p => decide (cellKey gsz p = c))

/-- The nine cell offsets scanned by find_next_point, dx outer, dy inner. -/
def cellOffsets : List (Int × Int) :=
  [(-1, -1), (-1, 0), (-1, 1), (0, -1), (0, 0), (0, 1), (1, -1), (1, 0), (1, 1)]

/-- One candidate inspection inside find_next_point: an unvisited point within
the search radius that is strictly closer than the best distance so far
(initially i32 MAX) becomes the new best. -/
def fnpInner (current : Point) (visited : Finset Point) (max_distance : Int)
    (st : Option Point × Int) (p : Point) : Option Point × Int :=
  if p ∉ visited ∧ current.distance_squared p ≤ max_distance * max_distance ∧
      current.distance_squared p < st.2 then
    (some p, current.distance_squared p)
  else st

/-- find_next_point: scan the 3 x 3 block of cells around the current point's
cell (cell size max(max_distance, 1)) and return the nearest unvisited point
within max_distance, if any. -/
def find_next_point (current : Point) (spatial_index : Int × Int → List Point)
    (visited : Finset Point) (max_distance : Int) : Option Point :=
  (cellOffsets.foldl (fun st o =>
      (spatial_index (current.x.tdiv (max max_distance 1) + o.1,
          current.y.tdiv (max max_distance 1) + o.2)).foldl
        (fnpInner current visited max_distance) st)
    (none, 2147483647)).1

/-- The candidate inspection of find_next_point as compiled in release mode:
the distances and the squared radius are the wrapped i32 values. -/
def fnpInner_i32 (current : Point) (visited : Finset Point) (max_distance : Int)
    (st : Option Point × Int) (p : Point) : Option Point × Int :=
  if p ∉ visited ∧ distance_squared_i32 current p ≤ wrap32 (max_distance * max_distance) ∧
      distance_squared_i32 current p < st.2 then
    (some p, distance_squared_i32 current p)
  else st

/-- find_next_point as compiled in release mode: i32 wrap-around on the
distance arithmetic, the squared radius, and the cell-offset additions. -/
def find_next_point_i32 (current : Point) (spatial_index : Int × Int → List Point)
    (visited : Finset Point) (max_distance : Int) : Option Point :=
  (cellOffsets.foldl (fun st o =>
      (spatial_index (wrap32 (current.x.tdiv (max max_distance 1) + o.1),
          wrap32 (current.y.tdiv (max max_distance 1) + o.2))).foldl
        (fnpInner_i32 current visited max_distance) st)
    (none, 2147483647)).1

/-- The invariant of the candidate scan of find_next_point over the points
inspected so far: an empty best means the sentinel distance is untouched and
no inspected point qualifies; a best point is an inspected, unvisited,
in-range point whose distance is recorded and minimal among the inspected
qualifying points. -/
def fnpInv (current : Point) (visited : Finset Point) (max_distance : Int)
    (st : Option Point × Int) (scanned : List Point) : Prop :=
  (st.1 = none → st.2 = 2147483647 ∧
    ∀ p ∈ scanned, ¬(p ∉ visited ∧
      current.distance_squared p ≤ max_distance * max_distance)) ∧
  (∀ q, st.1 = some q → q ∈ scanned ∧ q ∉ visited ∧
    current.distance_squared q ≤ max_distance * max_distance ∧
    st.2 = current.distance_squared q ∧
    ∀ p ∈ scanned, p ∉ visited →
      current.distance_squared p ≤ max_distance * max_distance →
      st.2 ≤ current.distance_squared p)

/-- The soundness part of the candidate-scan invariant alone (no bound on
max_distance is needed for it): a best point is inspected and unvisited. -/
def fnpSound (visited : Finset Point) (st : Option Point × Int)
    (scanned : List Point) : Prop :=
  ∀ q, st.1 = some q → q ∈ scanned ∧ q ∉ visited

/-- The while loop of trace_line, with explicit fuel (the loop finishes within
any fuel exceeding the number of indexed points, since every appended point is
a fresh unvisited indexed point); the first argument of the recursion tracks
the last element of the line. -/
def traceLoop (spatial_index : Int × Int → List Point) (max_distance : Int) :
    Nat → Point → List Point → Finset Point → List Point × Finset Point
  | 0, _, line, visited => (line, visited)
  | fuel + 1, last, line, visited =>
    match find_next_point last spatial_index visited max_distance with
    | none => (line, visited)
    | some p =>
      traceLoop spatial_index max_distance fuel p (line ++ [p]) (insert p visited)

/-- trace_line: start a line at the start point, mark it visited, then extend
it with nearest unvisited neighbours until none is in range. -/
def trace_line (start : Point) (spatial_index : Int × Int → List Point)
    (visited : Finset Point) (max_distance : Int) (fuel : Nat) :
    List Point × Finset Point :=
  traceLoop spatial_index max_distance fuel start [start] (insert start visited)

/-- The scan of find_connected_components over the sorted starting points,
keeping every traced line - the discarded short ones included. -/
def componentsLoopAll (spatial_index : Int × Int → List Point) (max_distance : Int)
    (fuel : Nat) :
    List Point → List (List Point) → Finset Point → List (List Point) × Finset Point
  | [], lines, visited => (lines, visited)
  | p :: rest, lines, visited =>
    if p ∈ visited then
      componentsLoopAll spatial_index max_distance fuel rest lines visited
    else
      let r := trace_line p spatial_index visited max_distance fuel
      componentsLoopAll spatial_index max_distance fuel rest (lines ++ [r.1]) r.2

/-- The same scan with the noise filter of the source: a traced line is kept
only when it has more than two points. -/
def componentsLoop (spatial_index : Int × Int → List Point) (max_distance : Int)
    (fuel : Nat) :
    List Point → List (List Point) → Finset Point → List (List Point) × Finset Point
  | [], lines, visited => (lines, visited)
  | p :: rest, lines, visited =>
    if p ∈ visited then
      componentsLoop spatial_index max_distance fuel rest lines visited
    else
      let r := trace_line p spatial_index visited max_distance fuel
      componentsLoop spatial_index max_distance fuel rest
        (if 2 < r.1.length then lines ++ [r.1] else lines) r.2

/-- All lines traced by find_connected_components, before the noise filter. -/
def allTraceLines (points : List Point) (max_distance : Int) : List (List Point) :=
  (componentsLoopAll (build_spatial_index points (max max_distance 1)) max_distance
    (points.length + 1) (points.insertionSort pointLe) [] ∅).1

/-- find_connected_components: build the spatial index with cell size
max(max_distance, 1), sort the points by (y, x), trace a line from every not
yet visited point, keep the lines with more than two points, and sort them by
descending length. -/
def find_connected_components (points : List Point) (max_distance : Int) :
    List (List Point) :=
  ((componentsLoop (build_spatial_index points (max max_distance 1)) max_distance
      (points.length + 1) (points.insertionSort pointLe) [] ∅).1).insertionSort lenDescLe

/-- The five scaling policies of ImageScaler. -/
inductive ScalingMode
  | stretch
  | fit
  | fill
  | center
  | tile
deriving DecidableEq

/-- scale_image_to_region.  The two resampling operations of the external
image crate (aspect-preserving resize and resize_exact, both Lanczos3) are
passed in as function parameters; the f64 scale factors are modelled by exact
rationals and the f64-to-u32 casts by the floor (the factors are nonnegative).
The region dimensions are the unsigned absolute values of the i32 corner
differences, floored at 10; the i32 subtraction wraps (release semantics;
debug builds panic when it wraps), hence the wrap32 around each difference.
All branches produce a total image except Tile, whose per-pixel modulus by a
zero source dimension panics, modelled by `none`. -/
def scale_image_to_region (resample resampleExact : Grid → Nat → Nat → Grid)
    (img : Grid) (startPos endPos : Int × Int) (mode : ScalingMode) : Option Grid :=
  let rw0 := max (wrap32 (endPos.1 - startPos.1)).natAbs 10
  let rh0 := max (wrap32 (endPos.2 - startPos.2)).natAbs 10
  match mode with
  | ScalingMode.stretch => some (resampleExact img rw0 rh0)
  | ScalingMode.fit =>
    let scaleX : ℚ := (rw0 : ℚ) / (img.width : ℚ)
    let scaleY : ℚ := (rh0 : ℚ) / (img.height : ℚ)
    let scaleF := min scaleX scaleY
    let newW := ((img.width : ℚ) * scaleF).floor.toNat
    let newH := ((img.height : ℚ) * scaleF).floor.toNat
    let scaled := resample img newW newH
    let offX := (rw0 - newW) / 2
    let offY := (rh0 - newH) / 2
    some ⟨rw0, rh0, fun x y =>
      if offX ≤ x ∧ offY ≤ y ∧ x - offX < scaled.width ∧ y - offY < scaled.height then
        scaled.pix (x - offX) (y - offY)
      else 255⟩
  | ScalingMode.fill =>
    let scaleX : ℚ := (rw0 : ℚ) / (img.width : ℚ)
    let scaleY : ℚ := (rh0 : ℚ) / (img.height : ℚ)
    let scaleF := max scaleX scaleY
    let newW := ((img.width : ℚ) * scaleF).floor.toNat
    let newH := ((img.height : ℚ) * scaleF).floor.toNat
    let scaled := resample img newW newH
    let cropX := if rw0 < newW then (newW - rw0) / 2 else 0
    let cropY := if rh0 < newH then (newH - rh0) / 2 else 0
    some ⟨rw0, rh0, fun x y =>
      if cropX + x < newW ∧ cropY + y < newH then scaled.pix (cropX + x) (cropY + y)
      else 255⟩
  | ScalingMode.center =>
    let offX := if img.width < rw0 then (rw0 - img.width) / 2 else 0
    let offY := if img.height < rh0 then (rh0 - img.height) / 2 else 0
    some ⟨rw0, rh0, fun x y =>
      if offX ≤ x ∧ offY ≤ y ∧ x - offX < img.width ∧ y - offY < img.height then
        img.pix (x - offX) (y - offY)
      else 255⟩
  | ScalingMode.tile =>
    if img.width = 0 ∨ img.height = 0 then none
    else some ⟨rw0, rh0, fun x y => img.pix (x % img.width) (y % img.height)⟩

/-- Claim C1: on a uniform (constant-intensity) grid every strategy is said to
return a threshold without panicking; in fact the contrast accumulation pass of
the Wolf strategy reads channel 1 of a one-channel Luma pixel on its very first
iteration and panics, here on the uniform 4 x 4 grid of intensity 7. -/
theorem wolf_uniform_grid_panics :
    calculate_wolf_threshold (uniformGrid 4 4 7) = none := by
  rfl

/-- Claim C2: the Wolf strategy is said to return k times the contrast-weighted
mean intensity; instead, for any grid with at least one pixel the accumulation
loop panics (channel index 1 on a Luma pixel), so no such value is ever
computed, here on the 2 x 1 grid with pixels 3 and 5. -/
theorem wolf_never_computes_threshold :
    calculate_wolf_threshold twoPixelGrid = none := by
  rfl

/-- Claim C3: on degenerate grids (zero-sized, or too small for a full window)
the windowed strategies are said to resolve to a deterministic fallback without
crashing; in fact both Sauvola and Bernsen have an empty interior on the
uniform 5 x 5 grid and panic when indexing the middle of the empty list of
window thresholds (and the interior bound itself is a u32 subtraction that
underflows, panicking even earlier in debug builds). -/
theorem sauvola_bernsen_degenerate_panic :
    (∀ sqrtF : ℚ → ℚ, calculate_sauvola_threshold sqrtF (uniformGrid 5 5 3) = none) ∧
      calculate_bernsen_threshold (uniformGrid 5 5 3) = none := by
  exact ⟨fun _ => rfl, rfl⟩

/-- Folding a function that fixes every state over the list is the identity. -/
theorem foldl_id_all {α β : Type} (f : β → α → β) (l : List α)
    (h : ∀ a ∈ l, ∀ s, f s a = s) : ∀ s, l.foldl f s = s := by
  induction l with
  | nil => intro s; rfl
  | cons a l ih =>
    intro s
    rw [List.foldl_cons, h a (List.mem_cons_self a l)]
    exact ih (fun b hb s2 => h b (List.mem_cons_of_mem a hb) s2) s

/-- Folding from a state fixed by every element of the list keeps the state. -/
theorem foldl_fixed {α β : Type} (f : β → α → β) (l : List α) (s : β)
    (h : ∀ a ∈ l, f s a = s) : l.foldl f s = s := by
  induction l with
  | nil => rfl
  | cons a l ih =>
    rw [List.foldl_cons, h a (List.mem_cons_self a l)]
    exact ih (fun b hb => h b (List.mem_cons_of_mem a hb))

theorem twoLevel_pixelList (n : Nat) :
    (twoLevelGrid n).pixelList = (List.range n).flatMap (fun _ => [10, 60000]) := rfl

theorem twoLevel_histCount (n v : Nat) :
    histCount (twoLevelGrid n).pixelList v = n * List.count v [10, 60000] := by
  rw [histCount, twoLevel_pixelList]
  induction n with
  | zero => simp
  | succ k ih =>
    rw [List.range_succ, List.flatMap_append, List.count_append, ih,
      show (([k].flatMap fun _ => [10, 60000]) : List Nat) = [10, 60000] from rfl]
    ring

theorem twoLevel_rangeSum (n : Nat) (f : Nat → Nat → Nat) (hf : ∀ i, f i 0 = 0) :
    ∑ i ∈ Finset.range 65536, f i (histCount (twoLevelGrid n).pixelList i) =
      f 10 n + f 60000 n := by
  have hsub : ({10, 60000} : Finset Nat) ⊆ Finset.range 65536 := by
    intro i hi
    rw [Finset.mem_insert, Finset.mem_singleton] at hi
    rcases hi with rfl | rfl <;> exact Finset.mem_range.mpr (by norm_num)
  have hz : ∀ i ∈ Finset.range 65536, i ∉ ({10, 60000} : Finset Nat) →
      f i (histCount (twoLevelGrid n).pixelList i) = 0 := by
    intro i _ hi
    have h1 : i ≠ 10 := by rintro rfl; exact hi (by decide)
    have h2 : i ≠ 60000 := by rintro rfl; exact hi (by decide)
    rw [twoLevel_histCount, List.count_eq_zero.mpr (by simp [h1, h2]), Nat.mul_zero]
    exact hf i
  rw [← Finset.sum_subset hsub hz,
    Finset.sum_pair (show (10 : Nat) ≠ 60000 by norm_num),
    twoLevel_histCount, twoLevel_histCount,
    show List.count 10 [10, 60000] = 1 from rfl,
    show List.count 60000 [10, 60000] = 1 from rfl,
    Nat.mul_one]

theorem twoLevel_count0 (n t : Nat) :
    otsuCount0 (twoLevelGrid n).pixelList t =
      (if 10 ≤ t then n else 0) + (if 60000 ≤ t then n else 0) :=
  twoLevel_rangeSum n (fun i c => if i ≤ t then c else 0) (fun _ => ite_self 0)

theorem twoLevel_count1 (n t : Nat) :
    otsuCount1 (twoLevelGrid n).pixelList t =
      (if 10 ≤ t then 0 else n) + (if 60000 ≤ t then 0 else n) :=
  twoLevel_rangeSum n (fun i c => if i ≤ t then 0 else c) (fun i => by
    by_cases h : i ≤ t <;> simp [h])

theorem twoLevel_sum0 (n t : Nat) :
    otsuSum0 (twoLevelGrid n).pixelList t =
      (if 10 ≤ t then 10 * n else 0) + (if 60000 ≤ t then 60000 * n else 0) := by
  have h := twoLevel_rangeSum n (fun i c => if i ≤ t then i * c else 0) (fun i => by
    by_cases h : i ≤ t <;> simp [h])
  rw [otsuSum0, h]

theorem twoLevel_sum1 (n t : Nat) :
    otsuSum1 (twoLevelGrid n).pixelList t =
      (if 10 ≤ t then 0 else 10 * n) + (if 60000 ≤ t then 0 else 60000 * n) := by
  have h := twoLevel_rangeSum n (fun i c => if i ≤ t then 0 else i * c) (fun i => by
    by_cases h : i ≤ t <;> simp [h])
  rw [otsuSum1, h]

theorem twoLevel_stats_mid (n t : Nat) (hn : 1 ≤ n) (h10 : 10 ≤ t) (h6 : t < 60000) :
    calculate_class_statistics (twoLevelGrid n).pixelList t (2 * n) =
      (1/2, 1/2, 10, 60000) := by
  have hne : ¬ 60000 ≤ t := by omega
  have hc0 : otsuCount0 (twoLevelGrid n).pixelList t = n := by
    rw [twoLevel_count0, if_pos h10, if_neg hne]; omega
  have hc1 : otsuCount1 (twoLevelGrid n).pixelList t = n := by
    rw [twoLevel_count1, if_pos h10, if_neg hne]; omega
  have hs0 : otsuSum0 (twoLevelGrid n).pixelList t = 10 * n := by
    rw [twoLevel_sum0, if_pos h10, if_neg hne]; omega
  have hs1 : otsuSum1 (twoLevelGrid n).pixelList t = 60000 * n := by
    rw [twoLevel_sum1, if_pos h10, if_neg hne]; omega
  have hq : (n : ℚ) ≠ 0 := Nat.cast_ne_zero.mpr (by omega)
  unfold calculate_class_statistics
  rw [hc0, hc1, hs0, hs1, if_pos (show 0 < n by omega), if_pos (show 0 < n by omega)]
  simp only [Prod.mk.injEq]
  push_cast
  refine ⟨by field_simp; ring, by field_simp; ring, by field_simp, by field_simp⟩

theorem otsuStep_low (n total t : Nat) (ht : t < 10) (st : Nat × ℚ) :
    otsuStep (twoLevelGrid n).pixelList total st t = st := by
  have hc0 : otsuCount0 (twoLevelGrid n).pixelList t = 0 := by
    rw [twoLevel_count0, if_neg (by omega), if_neg (by omega)]
  have hw0 : (calculate_class_statistics (twoLevelGrid n).pixelList t total).1 = 0 := by
    unfold calculate_class_statistics
    rw [hc0]
    norm_num
  unfold otsuStep
  rw [hw0]
  norm_num

theorem otsuStep_high (n total t : Nat) (ht : 60000 ≤ t) (st : Nat × ℚ) :
    otsuStep (twoLevelGrid n).pixelList total st t = st := by
  have hc1 : otsuCount1 (twoLevelGrid n).pixelList t = 0 := by
    rw [twoLevel_count1, if_pos (by omega), if_pos ht]
  have hw1 : (calculate_class_statistics (twoLevelGrid n).pixelList t total).2.1 = 0 := by
    unfold calculate_class_statistics
    rw [hc1]
    norm_num
  unfold otsuStep
  rw [hw1]
  norm_num

theorem otsu_twoLevel (n : Nat) (hn : 1 ≤ n) :
    calculate_otsu_threshold (twoLevelGrid n) = 10 := by
  have hw : (twoLevelGrid n).width * (twoLevelGrid n).height = 2 * n := rfl
  unfold calculate_otsu_threshold
  rw [hw]
  have hsplit : List.range 65536 =
      (List.range 10 ++ [10]) ++ (List.range 65525).map (fun i => 11 + i) := by
    rw [← List.range_succ, ← List.range_add]
  have hlow : List.foldl (otsuStep (twoLevelGrid n).pixelList (2 * n)) (0, 0)
      (List.range 10) = (0, 0) :=
    foldl_id_all _ _ (fun t ht s =>
      otsuStep_low n (2 * n) t (List.mem_range.1 ht) s) (0, 0)
  have hmid := twoLevel_stats_mid n 10 hn le_rfl (by norm_num)
  have h10step : otsuStep (twoLevelGrid n).pixelList (2 * n) (0, 0) 10 =
      (10, 899700025) := by
    unfold otsuStep
    rw [hmid]
    norm_num
  have hfix : ∀ a ∈ (List.range 65525).map (fun i => 11 + i),
      otsuStep (twoLevelGrid n).pixelList (2 * n) (10, 899700025) a =
        (10, 899700025) := by
    intro a ha
    obtain ⟨i, hi, rfl⟩ := List.mem_map.1 ha
    by_cases hc : 11 + i < 60000
    · have hstats := twoLevel_stats_mid n (11 + i) hn (by omega) hc
      unfold otsuStep
      rw [hstats]
      norm_num
    · exact otsuStep_high n (2 * n) (11 + i) (by omega) _
  rw [hsplit, List.foldl_append, List.foldl_append, hlow,
    List.foldl_cons, List.foldl_nil, h10step, foldl_fixed _ _ _ hfix]

/-- Claim C5 counterexample: on the two-level image with one pixel at
intensity 10 and one at 60000, the Otsu threshold equals 10, so it is not
strictly greater than 10 as claimed (the variance is constant on [10, 59999]
and the strict-improvement scan keeps the first maximiser). -/
theorem otsu_two_level_not_strictly_between :
    ¬(10 < calculate_otsu_threshold (twoLevelGrid 1) ∧
        calculate_otsu_threshold (twoLevelGrid 1) < 60000) := by
  rw [otsu_twoLevel 1 le_rfl]
  simp

/-- Claim C5 (amended): for every two-level image with n pixels at intensity
10 and n at 60000 (n at least 1, and small enough that the u32 accumulators
of the source cannot overflow), the Otsu threshold lies in [10, 60000): it is
at least 10 - with equality, rather than strictly above 10 - and strictly
below 60000. -/
theorem otsu_two_level_bounds (n : Nat) (h1 : 1 ≤ n) (h2 : n ≤ 71582) :
    10 ≤ calculate_otsu_threshold (twoLevelGrid n) ∧
      calculate_otsu_threshold (twoLevelGrid n) < 60000 := by
  rw [otsu_twoLevel n h1]
  norm_num

theorem otsu_two_level_bounds_witness :
    10 ≤ calculate_otsu_threshold (twoLevelGrid 2) ∧
      calculate_otsu_threshold (twoLevelGrid 2) < 60000 :=
  otsu_two_level_bounds 2 (by norm_num) (by norm_num)

/-- Claim C4 (amended): for every grid, threshold and sampling stride, a pixel
is sampled as drawable content (a black mask pixel) exactly when its intensity
is at most the scalar threshold; this one convention applies to all five
strategies, global and local alike. -/
theorem black_pixel_iff_le_threshold (g : Grid) (t st x y : Nat) (hst : 1 ≤ st)
    (hx : x < g.width) (hy : y < g.height) (hxs : x % st = 0) (hys : y % st = 0) :
    Point.mk (x : Int) (y : Int) ∈ get_black_pixels_adaptive (binarize g t) st ↔
      g.pix x y ≤ t := by
  unfold get_black_pixels_adaptive binarize stepIndices
  simp only [List.mem_filterMap, List.mem_flatMap, List.mem_map, List.mem_filter,
    List.mem_range, beq_iff_eq]
  constructor
  · rintro ⟨c, ⟨y2, ⟨hy2, hy2s⟩, x2, ⟨hx2, hx2s⟩, rfl⟩, hsome⟩
    dsimp only at hsome
    by_cases hcond : (if t < g.pix x2 y2 then 255 else 0) = 0
    · rw [if_pos hcond] at hsome
      have h1 : ((x2 : Int) = (x : Int)) := congrArg Point.x (Option.some.inj hsome)
      have h2 : ((y2 : Int) = (y : Int)) := congrArg Point.y (Option.some.inj hsome)
      obtain rfl : x2 = x := Nat.cast_inj.mp h1
      obtain rfl : y2 = y := Nat.cast_inj.mp h2
      by_contra hgt
      rw [if_pos (by omega)] at hcond
      exact absurd hcond (by norm_num)
    · rw [if_neg hcond] at hsome
      exact absurd hsome (by simp)
  · intro hle
    refine ⟨(x, y), ⟨y, ⟨hy, hys⟩, x, ⟨hx, hxs⟩, rfl⟩, ?_⟩
    have hnlt : ¬ t < g.pix x y := by omega
    simp [hnlt]

theorem black_pixel_iff_le_threshold_witness :
    Point.mk ((0 : Nat) : Int) ((0 : Nat) : Int) ∈
        get_black_pixels_adaptive (binarize (uniformGrid 1 1 0) 0) 1 ↔
      (uniformGrid 1 1 0).pix 0 0 ≤ 0 :=
  black_pixel_iff_le_threshold (uniformGrid 1 1 0) 0 1 0 0 (by decide)
    (by decide) (by decide) (by decide) (by decide)

/-- Claim C4 counterexample: with the Otsu threshold 10 of the two-level 2x1
grid, the pixel at (1, 0) has intensity 60000, strictly above the threshold,
yet it is not sampled as drawable content - the drawable points are the mask
zeros, i.e. the pixels with intensity at most the threshold, under global
strategies too. -/
theorem black_pixel_global_convention_fails :
    calculate_otsu_threshold (twoLevelGrid 1) < 60000 ∧
      Point.mk 1 0 ∉ get_black_pixels_adaptive
        (binarize (twoLevelGrid 1) (calculate_otsu_threshold (twoLevelGrid 1))) 1 := by
  rw [otsu_twoLevel 1 le_rfl]
  exact ⟨by norm_num, by decide⟩

theorem wrap32_eq (a : Int) (h1 : -2147483648 ≤ a) (h2 : a < 2147483648) :
    wrap32 a = a := by
  unfold wrap32
  omega

theorem wrap32_natAbs_neg (a : Int) : (wrap32 (-a)).natAbs = (wrap32 a).natAbs := by
  unfold wrap32
  omega

/-- Claim C7 counterexample: on the 0 x 0 source mask with corners (0,0) and
(20,20), Tile mode panics on the per-pixel modulus by the zero source width,
so there is no output at all, let alone one with the claimed dimensions. -/
theorem scale_zero_mask_tile_panics :
    scale_image_to_region (fun _ w h => ⟨w, h, fun _ _ => 0⟩)
      (fun _ w h => ⟨w, h, fun _ _ => 0⟩) ⟨0, 0, fun _ _ => 0⟩ (0, 0) (20, 20)
      ScalingMode.tile = none := by
  rfl

/-- Claim C7 (amended): for every source mask with nonzero dimensions and
corners whose coordinate differences fit in an i32 (so the corner subtraction
of the source does not wrap), under the external contract that exact
resampling yields an image of the requested dimensions, every scaling mode
produces an output of dimensions (max(abs(x2-x1), 10), max(abs(y2-y1), 10)),
and swapping the two corners yields an identical result. -/
theorem scale_dims_and_corner_swap (resample resampleExact : Grid → Nat → Nat → Grid)
    (hre : ∀ i w h, (resampleExact i w h).width = w ∧ (resampleExact i w h).height = h)
    (img : Grid) (hw : 1 ≤ img.width) (hh : 1 ≤ img.height)
    (s e : Int × Int)
    (hfx1 : -2147483648 ≤ e.1 - s.1) (hfx2 : e.1 - s.1 < 2147483648)
    (hfy1 : -2147483648 ≤ e.2 - s.2) (hfy2 : e.2 - s.2 < 2147483648)
    (mode : ScalingMode) :
    (∃ out, scale_image_to_region resample resampleExact img s e mode = some out ∧
        out.width = max (e.1 - s.1).natAbs 10 ∧
        out.height = max (e.2 - s.2).natAbs 10) ∧
      scale_image_to_region resample resampleExact img s e mode =
        scale_image_to_region resample resampleExact img e s mode := by
  have hwx : wrap32 (e.1 - s.1) = e.1 - s.1 := wrap32_eq _ hfx1 hfx2
  have hwy : wrap32 (e.2 - s.2) = e.2 - s.2 := wrap32_eq _ hfy1 hfy2
  have hswx : (wrap32 (e.1 - s.1)).natAbs = (wrap32 (s.1 - e.1)).natAbs := by
    rw [show s.1 - e.1 = -(e.1 - s.1) from by ring]
    exact (wrap32_natAbs_neg (e.1 - s.1)).symm
  have hswy : (wrap32 (e.2 - s.2)).natAbs = (wrap32 (s.2 - e.2)).natAbs := by
    rw [show s.2 - e.2 = -(e.2 - s.2) from by ring]
    exact (wrap32_natAbs_neg (e.2 - s.2)).symm
  constructor
  · cases mode with
    | stretch =>
      simp only [scale_image_to_region]
      rw [hwx, hwy]
      exact ⟨_, rfl, (hre img _ _).1, (hre img _ _).2⟩
    | fit =>
      simp only [scale_image_to_region]
      rw [hwx, hwy]
      exact ⟨_, rfl, rfl, rfl⟩
    | fill =>
      simp only [scale_image_to_region]
      rw [hwx, hwy]
      exact ⟨_, rfl, rfl, rfl⟩
    | center =>
      simp only [scale_image_to_region]
      rw [hwx, hwy]
      exact ⟨_, rfl, rfl, rfl⟩
    | tile =>
      have hcond : ¬(img.width = 0 ∨ img.height = 0) := by omega
      simp only [scale_image_to_region]
      rw [if_neg hcond, hwx, hwy]
      exact ⟨_, rfl, rfl, rfl⟩
  · simp only [scale_image_to_region]
    rw [hswx, hswy]

theorem scale_dims_and_corner_swap_witness :
    (∃ out, scale_image_to_region (fun _ w h => ⟨w, h, fun _ _ => 0⟩)
          (fun _ w h => ⟨w, h, fun _ _ => 0⟩) (uniformGrid 1 1 0) (0, 0) (20, 20)
          ScalingMode.tile = some out ∧
        out.width = max ((20 : Int) - 0).natAbs 10 ∧
        out.height = max ((20 : Int) - 0).natAbs 10) ∧
      scale_image_to_region (fun _ w h => ⟨w, h, fun _ _ => 0⟩)
          (fun _ w h => ⟨w, h, fun _ _ => 0⟩) (uniformGrid 1 1 0) (0, 0) (20, 20)
          ScalingMode.tile =
        scale_image_to_region (fun _ w h => ⟨w, h, fun _ _ => 0⟩)
          (fun _ w h => ⟨w, h, fun _ _ => 0⟩) (uniformGrid 1 1 0) (20, 20) (0, 0)
          ScalingMode.tile :=
  scale_dims_and_corner_swap _ _ (fun _ _ _ => ⟨rfl, rfl⟩) (uniformGrid 1 1 0)
    (by decide) (by decide) (0, 0) (20, 20) (by decide) (by decide) (by decide)
    (by decide) ScalingMode.tile

/-- Claim C8: scaling in Tile mode into a target region whose dimensions
exactly equal the source dimensions reproduces the source mask pixel for
pixel.  The scenario - the target region dimensions equalling the source
dimensions - is identified through the region dimensions the program itself
computes (the floored unsigned absolute i32 corner differences), so corners
whose subtraction wraps are governed by the same wrap the program performs. -/
theorem tile_roundtrip (resample resampleExact : Grid → Nat → Nat → Grid)
    (img : Grid) (s e : Int × Int)
    (hw : max (wrap32 (e.1 - s.1)).natAbs 10 = img.width)
    (hh : max (wrap32 (e.2 - s.2)).natAbs 10 = img.height) :
    ∃ out, scale_image_to_region resample resampleExact img s e ScalingMode.tile =
        some out ∧
      out.width = img.width ∧ out.height = img.height ∧
      ∀ x y, x < img.width → y < img.height → out.pix x y = img.pix x y := by
  have hcond : ¬(img.width = 0 ∨ img.height = 0) := by omega
  simp only [scale_image_to_region]
  rw [if_neg hcond]
  refine ⟨_, rfl, hw, hh, ?_⟩
  intro x y hxlt hylt
  dsimp only
  rw [Nat.mod_eq_of_lt hxlt, Nat.mod_eq_of_lt hylt]

theorem tdiv_neg_eq (a g : Int) : a.tdiv g = -((-a).tdiv g) := by
  rw [Int.neg_tdiv, neg_neg]

theorem tdiv_mono (g : Int) (hg : 1 ≤ g) {a b : Int} (hab : a ≤ b) :
    a.tdiv g ≤ b.tdiv g := by
  rcases le_or_lt 0 a with ha | ha
  · rw [Int.tdiv_eq_ediv ha (by omega), Int.tdiv_eq_ediv (le_trans ha hab) (by omega)]
    exact Int.ediv_le_ediv (by omega) hab
  · rcases le_or_lt 0 b with hb | hb
    · have h1 : a.tdiv g ≤ 0 := by
        rw [tdiv_neg_eq]
        have h2 : 0 ≤ (-a).tdiv g := Int.tdiv_nonneg (by omega) (by omega)
        omega
      have h2 : 0 ≤ b.tdiv g := Int.tdiv_nonneg hb (by omega)
      omega
    · rw [tdiv_neg_eq a g, tdiv_neg_eq b g,
        Int.tdiv_eq_ediv (by omega : (0:Int) ≤ -a) (by omega),
        Int.tdiv_eq_ediv (by omega : (0:Int) ≤ -b) (by omega)]
      have h3 := Int.ediv_le_ediv (show (0:Int) < g by omega) (show -b ≤ -a by omega)
      omega

theorem tdiv_add_cell (g : Int) (hg : 1 ≤ g) (x : Int) :
    (x + g).tdiv g ≤ x.tdiv g + 1 := by
  rcases le_or_lt 0 x with hx | hx
  · rw [Int.tdiv_eq_ediv hx (by omega), Int.tdiv_eq_ediv (by omega) (by omega)]
    have h := Int.add_mul_ediv_right x 1 (show g ≠ 0 by omega)
    simp only [one_mul] at h
    omega
  · rcases le_or_lt x (-g) with hx2 | hx2
    · rw [tdiv_neg_eq (x + g), tdiv_neg_eq x,
        Int.tdiv_eq_ediv (by omega : (0:Int) ≤ -(x + g)) (by omega),
        Int.tdiv_eq_ediv (by omega : (0:Int) ≤ -x) (by omega)]
      have h := Int.add_mul_ediv_right (-x) (-1) (show g ≠ 0 by omega)
      have he : -(x + g) = -x + (-1) * g := by ring
      rw [he, h]
      omega
    · have h1 : x.tdiv g = 0 := by
        rw [tdiv_neg_eq, Int.tdiv_eq_ediv (by omega : (0:Int) ≤ -x) (by omega),
          Int.ediv_eq_zero_of_lt (by omega) (by omega)]
        omega
      have h2 : (x + g).tdiv g = 0 := by
        rcases eq_or_lt_of_le (show x + g ≤ g by omega) with he | hlt
        · rw [he, Int.tdiv_eq_ediv (by omega) (by omega), Int.ediv_self (by omega)]
          omega
        · rw [Int.tdiv_eq_ediv (by omega) (by omega),
            Int.ediv_eq_zero_of_lt (by omega) hlt]
      omega

theorem tdiv_jump (g : Int) (hg : 1 ≤ g) (a b : Int) (hl : a - g ≤ b) (hr : b ≤ a + g) :
    a.tdiv g - 1 ≤ b.tdiv g ∧ b.tdiv g ≤ a.tdiv g + 1 := by
  constructor
  · have hm := tdiv_mono g hg hl
    have hs := tdiv_add_cell g hg (a - g)
    have he : a - g + g = a := by ring
    rw [he] at hs
    omega
  · have hm := tdiv_mono g hg hr
    have hs := tdiv_add_cell g hg a
    omega

theorem distance_squared_comm (p q : Point) :
    p.distance_squared q = q.distance_squared p := by
  unfold Point.distance_squared
  ring

theorem abs_le_of_sq_le (a d : Int) (hd : 0 ≤ d) (h : a * a ≤ d * d) :
    -d ≤ a ∧ a ≤ d := by
  constructor <;> nlinarith [sq_nonneg (a + d), sq_nonneg (a - d)]

theorem fnpInner_preserves (current : Point) (visited : Finset Point) (d : Int)
    (hd : d * d < 2147483647) (st : Option Point × Int) (scanned : List Point)
    (p : Point) (hInv : fnpInv current visited d st scanned) :
    fnpInv current visited d (fnpInner current visited d st p) (scanned ++ [p]) := by
  obtain ⟨hnone, hsome⟩ := hInv
  unfold fnpInner
  by_cases hc : p ∉ visited ∧ current.distance_squared p ≤ d * d ∧
      current.distance_squared p < st.2
  · rw [if_pos hc]
    constructor
    · intro h; exact absurd h (by simp)
    · intro q hq
      obtain rfl : p = q := by simpa using hq
      refine ⟨by simp, hc.1, hc.2.1, rfl, ?_⟩
      intro r hr hrv hrd
      rcases List.mem_append.mp hr with hr | hr
      · cases hst : st.1 with
        | none => exact absurd ⟨hrv, hrd⟩ ((hnone hst).2 r hr)
        | some q0 =>
          obtain ⟨-, -, -, hq0d, hq0min⟩ := hsome q0 hst
          have hge := hq0min r hr hrv hrd
          have hlt := hc.2.2
          omega
      · simp only [List.mem_singleton] at hr
        subst hr
        exact le_refl _
  · rw [if_neg hc]
    constructor
    · intro hst
      obtain ⟨h1, h2⟩ := hnone hst
      refine ⟨h1, ?_⟩
      intro r hr
      rcases List.mem_append.mp hr with hr | hr
      · exact h2 r hr
      · simp only [List.mem_singleton] at hr
        subst hr
        rintro ⟨ha, hb⟩
        exact hc ⟨ha, hb, by omega⟩
    · intro q hq
      obtain ⟨hq1, hq2, hq3, hq4, hq5⟩ := hsome q hq
      refine ⟨List.mem_append.mpr (Or.inl hq1), hq2, hq3, hq4, ?_⟩
      intro r hr hrv hrd
      rcases List.mem_append.mp hr with hr | hr
      · exact hq5 r hr hrv hrd
      · simp only [List.mem_singleton] at hr
        subst hr
        by_contra hlt
        exact hc ⟨hrv, hrd, by omega⟩

theorem fnpInner_foldl (current : Point) (visited : Finset Point) (d : Int)
    (hd : d * d < 2147483647) (l : List Point) :
    ∀ st scanned, fnpInv current visited d st scanned →
      fnpInv current visited d (l.foldl (fnpInner current visited d) st)
        (scanned ++ l) := by
  induction l with
  | nil => intro st scanned h; simpa using h
  | cons a l ih =>
    intro st scanned h
    rw [List.foldl_cons]
    have h1 := fnpInner_preserves current visited d hd st scanned a h
    have h2 := ih _ _ h1
    rwa [List.append_assoc, List.singleton_append] at h2

theorem fnp_cells_foldl (current : Point) (visited : Finset Point) (d : Int)
    (hd : d * d < 2147483647) (idx : Int × Int → List Point) (cgx cgy : Int)
    (os : List (Int × Int)) :
    ∀ st scanned, fnpInv current visited d st scanned →
      fnpInv current visited d
        (os.foldl (fun st o =>
          (idx (cgx + o.1, cgy + o.2)).foldl (fnpInner current visited d) st) st)
        (scanned ++ os.flatMap (fun o => idx (cgx + o.1, cgy + o.2))) := by
  induction os with
  | nil => intro st scanned h; simpa using h
  | cons o os ih =>
    intro st scanned h
    rw [List.foldl_cons]
    have h1 := fnpInner_foldl current visited d hd (idx (cgx + o.1, cgy + o.2))
      st scanned h
    have h2 := ih _ _ h1
    rw [List.flatMap_cons, ← List.append_assoc]
    exact h2

theorem fnpInner_sound_step (current : Point) (visited : Finset Point) (d : Int)
    (st : Option Point × Int) (scanned : List Point) (p : Point)
    (h : fnpSound visited st scanned) :
    fnpSound visited (fnpInner current visited d st p) (scanned ++ [p]) := by
  unfold fnpInner
  by_cases hc : p ∉ visited ∧ current.distance_squared p ≤ d * d ∧
      current.distance_squared p < st.2
  · rw [if_pos hc]
    intro q hq
    obtain rfl : p = q := by simpa using hq
    exact ⟨by simp, hc.1⟩
  · rw [if_neg hc]
    intro q hq
    obtain ⟨h1, h2⟩ := h q hq
    exact ⟨List.mem_append.mpr (Or.inl h1), h2⟩

theorem fnpInner_sound_foldl (current : Point) (visited : Finset Point) (d : Int)
    (l : List Point) :
    ∀ st scanned, fnpSound visited st scanned →
      fnpSound visited (l.foldl (fnpInner current visited d) st) (scanned ++ l) := by
  induction l with
  | nil => intro st scanned h; simpa using h
  | cons a l ih =>
    intro st scanned h
    rw [List.foldl_cons]
    have h1 := fnpInner_sound_step current visited d st scanned a h
    have h2 := ih _ _ h1
    rwa [List.append_assoc, List.singleton_append] at h2

theorem fnp_cells_sound_foldl (current : Point) (visited : Finset Point) (d : Int)
    (idx : Int × Int → List Point) (cgx cgy : Int) (os : List (Int × Int)) :
    ∀ st scanned, fnpSound visited st scanned →
      fnpSound visited
        (os.foldl (fun st o =>
          (idx (cgx + o.1, cgy + o.2)).foldl (fnpInner current visited d) st) st)
        (scanned ++ os.flatMap (fun o => idx (cgx + o.1, cgy + o.2))) := by
  induction os with
  | nil => intro st scanned h; simpa using h
  | cons o os ih =>
    intro st scanned h
    rw [List.foldl_cons]
    have h1 := fnpInner_sound_foldl current visited d (idx (cgx + o.1, cgy + o.2))
      st scanned h
    have h2 := ih _ _ h1
    rw [List.flatMap_cons, ← List.append_assoc]
    exact h2

theorem find_next_point_some_mem (points : List Point) (current : Point)
    (visited : Finset Point) (d : Int) (q : Point)
    (h : find_next_point current (build_spatial_index points (max d 1)) visited d =
      some q) :
    q ∈ points ∧ q ∉ visited := by
  have hbase : fnpSound visited (none, 2147483647) [] := by
    intro q hq
    exact absurd hq (by simp)
  have hs := fnp_cells_sound_foldl current visited d
    (build_spatial_index points (max d 1)) (current.x.tdiv (max d 1))
    (current.y.tdiv (max d 1)) cellOffsets (none, 2147483647) [] hbase
  rw [List.nil_append] at hs
  unfold find_next_point at h
  obtain ⟨hmem, hnv⟩ := hs q h
  refine ⟨?_, hnv⟩
  obtain ⟨o, _, ho⟩ := List.mem_flatMap.mp hmem
  exact (List.mem_filter.mp ho).1

theorem qualifying_in_cells (points : List Point) (current : Point) (d : Int)
    (hd0 : 0 ≤ d) (p : Point) (hp : p ∈ points)
    (hdist : current.distance_squared p ≤ d * d) :
    p ∈ cellOffsets.flatMap (fun o =>
      build_spatial_index points (max d 1)
        (current.x.tdiv (max d 1) + o.1, current.y.tdiv (max d 1) + o.2)) := by
  have hg1 : 1 ≤ max d 1 := le_max_right d 1
  have hdg : d ≤ max d 1 := le_max_left d 1
  have hsq : (current.x - p.x) * (current.x - p.x) ≤ d * d ∧
      (current.y - p.y) * (current.y - p.y) ≤ d * d := by
    unfold Point.distance_squared at hdist
    constructor <;> nlinarith [sq_nonneg (current.x - p.x), sq_nonneg (current.y - p.y)]
  obtain ⟨hxl, hxr⟩ := abs_le_of_sq_le (current.x - p.x) d hd0 hsq.1
  obtain ⟨hyl, hyr⟩ := abs_le_of_sq_le (current.y - p.y) d hd0 hsq.2
  have hjx := tdiv_jump (max d 1) hg1 current.x p.x (by omega) (by omega)
  have hjy := tdiv_jump (max d 1) hg1 current.y p.y (by omega) (by omega)
  refine List.mem_flatMap.mpr
    ⟨(p.x.tdiv (max d 1) - current.x.tdiv (max d 1),
      p.y.tdiv (max d 1) - current.y.tdiv (max d 1)), ?_, ?_⟩
  · have h1 : p.x.tdiv (max d 1) - current.x.tdiv (max d 1) = -1 ∨
        p.x.tdiv (max d 1) - current.x.tdiv (max d 1) = 0 ∨
        p.x.tdiv (max d 1) - current.x.tdiv (max d 1) = 1 := by omega
    have h2 : p.y.tdiv (max d 1) - current.y.tdiv (max d 1) = -1 ∨
        p.y.tdiv (max d 1) - current.y.tdiv (max d 1) = 0 ∨
        p.y.tdiv (max d 1) - current.y.tdiv (max d 1) = 1 := by omega
    rcases h1 with h1 | h1 | h1 <;> rcases h2 with h2 | h2 | h2 <;>
      simp [cellOffsets, h1, h2]
  · refine List.mem_filter.mpr ⟨hp, ?_⟩
    simp only [cellKey, Prod.mk.injEq, decide_eq_true_eq]
    omega

theorem find_next_point_spec (points : List Point) (current : Point)
    (visited : Finset Point) (d : Int) (hd0 : 0 ≤ d) (hd1 : d ≤ 46340) :
    (∀ q, find_next_point current (build_spatial_index points (max d 1)) visited d =
        some q →
      q ∈ points ∧ q ∉ visited ∧ current.distance_squared q ≤ d * d ∧
      ∀ p ∈ points, p ∉ visited → current.distance_squared p ≤ d * d →
        current.distance_squared q ≤ current.distance_squared p) ∧
    (find_next_point current (build_spatial_index points (max d 1)) visited d = none ↔
      ∀ p ∈ points, p ∉ visited → ¬ current.distance_squared p ≤ d * d) := by
  have hd : d * d < 2147483647 := by nlinarith
  have hbase : fnpInv current visited d (none, 2147483647) [] :=
    ⟨fun _ => ⟨rfl, by simp⟩, fun q hq => absurd hq (by simp)⟩
  have hInv := fnp_cells_foldl current visited d hd
    (build_spatial_index points (max d 1)) (current.x.tdiv (max d 1))
    (current.y.tdiv (max d 1)) cellOffsets (none, 2147483647) [] hbase
  rw [List.nil_append] at hInv
  obtain ⟨hIn, hIs⟩ := hInv
  constructor
  · intro q hq
    unfold find_next_point at hq
    obtain ⟨hq1, hq2, hq3, hq4, hq5⟩ := hIs q hq
    have hqpts : q ∈ points := by
      obtain ⟨o, _, ho⟩ := List.mem_flatMap.mp hq1
      exact (List.mem_filter.mp ho).1
    refine ⟨hqpts, hq2, hq3, ?_⟩
    intro p hp hpv hpd
    have hpmem := qualifying_in_cells points current d hd0 p hp hpd
    have hle := hq5 p hpmem hpv hpd
    omega
  · constructor
    · intro hnone p hp hpv hpd
      unfold find_next_point at hnone
      obtain ⟨-, h2⟩ := hIn hnone
      exact h2 p (qualifying_in_cells points current d hd0 p hp hpd) ⟨hpv, hpd⟩
    · intro hall
      cases hF : find_next_point current (build_spatial_index points (max d 1))
          visited d with
      | none => rfl
      | some q =>
        have hq := hF
        unfold find_next_point at hq
        obtain ⟨hq1, hq2, hq3, -, -⟩ := hIs q hq
        have hqpts : q ∈ points := by
          obtain ⟨o, -, ho⟩ := List.mem_flatMap.mp hq1
          exact (List.mem_filter.mp ho).1
        exact absurd hq3 (hall q hqpts hq2)

theorem traceLoop_spec (points : List Point) (d : Int) (fuel : Nat) :
    ∀ (last : Point) (acc : List Point) (visited : Finset Point),
      ∃ added : List Point,
        traceLoop (build_spatial_index points (max d 1)) d fuel last acc visited =
          (acc ++ added, visited ∪ added.toFinset) ∧
        (∀ p ∈ added, p ∈ points) ∧ added.Nodup ∧ (∀ p ∈ added, p ∉ visited) := by
  induction fuel with
  | zero =>
    intro last acc visited
    exact ⟨[], by simp [traceLoop], by simp, by simp, by simp⟩
  | succ n ih =>
    intro last acc visited
    cases hf : find_next_point last (build_spatial_index points (max d 1)) visited d with
    | none =>
      refine ⟨[], ?_, by simp, by simp, by simp⟩
      simp [traceLoop, hf]
    | some p =>
      obtain ⟨hp1, hp2⟩ := find_next_point_some_mem points last visited d p hf
      obtain ⟨added, ha1, ha2, ha3, ha4⟩ := ih p (acc ++ [p]) (insert p visited)
      refine ⟨p :: added, ?_, ?_, ?_, ?_⟩
      · have hstep : traceLoop (build_spatial_index points (max d 1)) d (n + 1)
            last acc visited =
            traceLoop (build_spatial_index points (max d 1)) d n p (acc ++ [p])
              (insert p visited) := by
          simp [traceLoop, hf]
        rw [hstep, ha1]
        simp only [Prod.mk.injEq]
        refine ⟨by simp, by simp [List.toFinset_cons, Finset.union_insert,
          Finset.insert_union]⟩
      · intro r hr
        rcases List.mem_cons.mp hr with rfl | hr
        · exact hp1
        · exact ha2 r hr
      · refine List.nodup_cons.mpr ⟨fun hmem => ?_, ha3⟩
        exact ha4 p hmem (Finset.mem_insert_self p visited)
      · intro r hr
        rcases List.mem_cons.mp hr with rfl | hr
        · exact hp2
        · exact fun hv => ha4 r hr (Finset.mem_insert_of_mem hv)

theorem trace_line_spec (points : List Point) (d : Int) (fuel : Nat) (start : Point)
    (visited : Finset Point) (hstart : start ∉ visited) :
    ∃ added : List Point,
      trace_line start (build_spatial_index points (max d 1)) visited d fuel =
        (start :: added, visited ∪ (start :: added).toFinset) ∧
      (∀ p ∈ added, p ∈ points) ∧ (start :: added).Nodup ∧
      (∀ p ∈ start :: added, p ∉ visited) := by
  obtain ⟨added, h1, h2, h3, h4⟩ :=
    traceLoop_spec points d fuel start [start] (insert start visited)
  refine ⟨added, ?_, h2, ?_, ?_⟩
  · unfold trace_line
    rw [h1]
    simp only [Prod.mk.injEq]
    refine ⟨by simp, by simp [List.toFinset_cons, Finset.union_insert,
      Finset.insert_union]⟩
  · exact List.nodup_cons.mpr
      ⟨fun hmem => h4 start hmem (Finset.mem_insert_self start visited), h3⟩
  · intro p hp
    rcases List.mem_cons.mp hp with rfl | hp
    · exact hstart
    · exact fun hv => h4 p hp (Finset.mem_insert_of_mem hv)

theorem componentsLoopAll_spec (points : List Point) (d : Int) (fuel : Nat) :
    ∀ (todo : List Point) (lines : List (List Point)) (visited : Finset Point),
      (∀ p ∈ todo, p ∈ points) →
      visited = lines.flatten.toFinset →
      (∀ l ∈ lines, l ≠ [] ∧ l.Nodup ∧ ∀ p ∈ l, p ∈ points) →
      List.Pairwise List.Disjoint lines →
      (componentsLoopAll (build_spatial_index points (max d 1)) d fuel todo lines
            visited).2 =
          (componentsLoopAll (build_spatial_index points (max d 1)) d fuel todo lines
            visited).1.flatten.toFinset ∧
        (∀ l ∈ (componentsLoopAll (build_spatial_index points (max d 1)) d fuel todo
            lines visited).1, l ≠ [] ∧ l.Nodup ∧ ∀ p ∈ l, p ∈ points) ∧
        List.Pairwise List.Disjoint
          (componentsLoopAll (build_spatial_index points (max d 1)) d fuel todo lines
            visited).1 ∧
        (∀ p ∈ todo, p ∈ (componentsLoopAll (build_spatial_index points (max d 1)) d
          fuel todo lines visited).2) ∧
        visited ⊆ (componentsLoopAll (build_spatial_index points (max d 1)) d fuel
          todo lines visited).2 := by
  intro todo
  induction todo with
  | nil =>
    intro lines visited h1 h2 h3 h4
    refine ⟨h2, h3, h4, by simp, fun x hx => hx⟩
  | cons p rest ih =>
    intro lines visited h1 h2 h3 h4
    by_cases hv : p ∈ visited
    · simp only [componentsLoopAll, if_pos hv]
      obtain ⟨r1, r2, r3, r4, r5⟩ := ih lines visited
        (fun q hq => h1 q (List.mem_cons_of_mem p hq)) h2 h3 h4
      refine ⟨r1, r2, r3, ?_, r5⟩
      intro q hq
      rcases List.mem_cons.mp hq with rfl | hq
      · exact r5 hv
      · exact r4 q hq
    · simp only [componentsLoopAll, if_neg hv]
      obtain ⟨added, ht1, ht2, ht3, ht4⟩ := trace_line_spec points d fuel p visited hv
      rw [ht1]
      have hlinepts : ∀ q ∈ p :: added, q ∈ points := by
        intro q hq
        rcases List.mem_cons.mp hq with rfl | hq
        · exact h1 _ (List.mem_cons_self _ _)
        · exact ht2 q hq
      have hvis2 : visited ∪ (p :: added).toFinset =
          (lines ++ [p :: added]).flatten.toFinset := by
        rw [h2, List.flatten_append]
        simp
      have hprops2 : ∀ l ∈ lines ++ [p :: added], l ≠ [] ∧ l.Nodup ∧
          ∀ q ∈ l, q ∈ points := by
        intro l hl
        rcases List.mem_append.mp hl with hl | hl
        · exact h3 l hl
        · simp only [List.mem_singleton] at hl
          subst hl
          exact ⟨by simp, ht3, hlinepts⟩
      have hpw2 : List.Pairwise List.Disjoint (lines ++ [p :: added]) := by
        rw [List.pairwise_append]
        refine ⟨h4, by simp, ?_⟩
        intro a ha b hb
        simp only [List.mem_singleton] at hb
        subst hb
        intro x hxa hxb
        have hxv : x ∈ visited := by
          rw [h2, List.mem_toFinset]
          exact List.mem_flatten.mpr ⟨a, ha, hxa⟩
        exact ht4 x hxb hxv
      obtain ⟨r1, r2, r3, r4, r5⟩ := ih (lines ++ [p :: added])
        (visited ∪ (p :: added).toFinset)
        (fun q hq => h1 q (List.mem_cons_of_mem p hq)) hvis2 hprops2 hpw2
      refine ⟨r1, r2, r3, ?_, ?_⟩
      · intro q hq
        rcases List.mem_cons.mp hq with rfl | hq
        · exact r5 (Finset.mem_union_right visited (by simp))
        · exact r4 q hq
      · exact fun x hx => r5 (Finset.mem_union_left _ hx)

theorem componentsLoop_filter (idx : Int × Int → List Point) (d : Int) (fuel : Nat) :
    ∀ (todo : List Point) (lines : List (List Point)) (visited : Finset Point),
      (componentsLoop idx d fuel todo
          (lines.filter (fun l => decide (2 < l.length))) visited).1 =
        ((componentsLoopAll idx d fuel todo lines visited).1).filter
          (fun l => decide (2 < l.length)) := by
  intro todo
  induction todo with
  | nil => intro lines visited; simp [componentsLoop, componentsLoopAll]
  | cons p rest ih =>
    intro lines visited
    by_cases hv : p ∈ visited
    · simp only [componentsLoop, componentsLoopAll, if_pos hv]
      exact ih lines visited
    · simp only [componentsLoop, componentsLoopAll, if_neg hv]
      have he : (if 2 < (trace_line p idx visited d fuel).1.length then
          lines.filter (fun l => decide (2 < l.length)) ++
            [(trace_line p idx visited d fuel).1]
          else lines.filter (fun l => decide (2 < l.length))) =
          (lines ++ [(trace_line p idx visited d fuel).1]).filter
            (fun l => decide (2 < l.length)) := by
        rw [List.filter_append]
        by_cases hl : 2 < (trace_line p idx visited d fuel).1.length
        · rw [if_pos hl]
          simp [hl]
        · rw [if_neg hl]
          simp [hl]
      rw [he]
      exact ih (lines ++ [(trace_line p idx visited d fuel).1]) _

/-- Claim C6: tracing partitions the input point set exactly - no point occurs
twice across the returned paths, and their union is the input set minus the
points that ended up in the discarded paths of length at most 2. -/
theorem trace_partition (points : List Point) (d : Int) (hnd : points.Nodup) :
    (find_connected_components points d).flatten.Nodup ∧
    (find_connected_components points d).flatten.toFinset =
      points.toFinset \
        ((allTraceLines points d).filter
          (fun l => decide (l.length ≤ 2))).flatten.toFinset := by
  have hsortmem : ∀ p ∈ points.insertionSort pointLe, p ∈ points := fun p hp =>
    (List.perm_insertionSort pointLe points).mem_iff.mp hp
  obtain ⟨hA2, hAprops, hApw, hAtodo, -⟩ :=
    componentsLoopAll_spec points d (points.length + 1)
      (points.insertionSort pointLe) [] ∅ hsortmem (by simp) (by simp) (by simp)
  have hAnodup : (allTraceLines points d).flatten.Nodup :=
    List.nodup_flatten.mpr ⟨fun l hl => (hAprops l hl).2.1, hApw⟩
  have hAfin : (allTraceLines points d).flatten.toFinset = points.toFinset := by
    apply Finset.Subset.antisymm
    · intro a ha
      rw [List.mem_toFinset] at ha
      rw [List.mem_toFinset]
      obtain ⟨l, hl, hal⟩ := List.mem_flatten.mp ha
      exact (hAprops l hl).2.2 a hal
    · intro a ha
      rw [List.mem_toFinset] at ha
      have hmem := hAtodo a
        ((List.perm_insertionSort pointLe points).mem_iff.mpr ha)
      rw [hA2] at hmem
      exact hmem
  have hkept : (componentsLoop (build_spatial_index points (max d 1)) d
      (points.length + 1) (points.insertionSort pointLe) [] ∅).1 =
      (allTraceLines points d).filter (fun l => decide (2 < l.length)) := by
    have h := componentsLoop_filter (build_spatial_index points (max d 1)) d
      (points.length + 1) (points.insertionSort pointLe) [] ∅
    simpa using h
  have hLperm : (find_connected_components points d).flatten.Perm
      ((allTraceLines points d).filter (fun l => decide (2 < l.length))).flatten := by
    unfold find_connected_components
    rw [hkept]
    exact (List.perm_insertionSort lenDescLe _).flatten
  have hcongr : (allTraceLines points d).filter (fun l => !decide (2 < l.length)) =
      (allTraceLines points d).filter (fun l => decide (l.length ≤ 2)) := by
    apply List.filter_congr
    intro l _
    by_cases h : 2 < l.length
    · have h2 : ¬ l.length ≤ 2 := by omega
      simp [h, h2]
    · have h2 : l.length ≤ 2 := by omega
      simp [h, h2]
  have hsplit : (((allTraceLines points d).filter
        (fun l => decide (2 < l.length))).flatten ++
      ((allTraceLines points d).filter
        (fun l => decide (l.length ≤ 2))).flatten).Perm
      (allTraceLines points d).flatten := by
    have hperm := List.filter_append_perm (fun l => decide (2 < l.length))
      (allTraceLines points d)
    rw [hcongr] at hperm
    rw [← List.flatten_append]
    exact hperm.flatten
  have hKDnodup : (((allTraceLines points d).filter
        (fun l => decide (2 < l.length))).flatten ++
      ((allTraceLines points d).filter
        (fun l => decide (l.length ≤ 2))).flatten).Nodup :=
    hsplit.symm.nodup hAnodup
  obtain ⟨hKnodup, hDnodup, hKDdisj⟩ := List.nodup_append.mp hKDnodup
  constructor
  · exact hLperm.symm.nodup hKnodup
  · rw [List.toFinset_eq_of_perm _ _ hLperm]
    have hunion : ((allTraceLines points d).filter
          (fun l => decide (2 < l.length))).flatten.toFinset ∪
        ((allTraceLines points d).filter
          (fun l => decide (l.length ≤ 2))).flatten.toFinset = points.toFinset := by
      rw [← List.toFinset_append, List.toFinset_eq_of_perm _ _ hsplit, hAfin]
    ext a
    simp only [Finset.mem_sdiff]
    constructor
    · intro ha
      refine ⟨?_, ?_⟩
      · rw [← hunion]
        exact Finset.mem_union_left _ ha
      · intro hd2
        rw [List.mem_toFinset] at ha hd2
        exact hKDdisj ha hd2
    · rintro ⟨hp, hnd2⟩
      rw [← hunion] at hp
      rcases Finset.mem_union.mp hp with hp | hp
      · exact hp
      · exact absurd hp hnd2

theorem traceLoop_succ_some (idx : Int × Int → List Point) (d : Int) (fuel : Nat)
    (last : Point) (line : List Point) (visited : Finset Point) (p : Point)
    (h : find_next_point last idx visited d = some p) :
    traceLoop idx d (fuel + 1) last line visited =
      traceLoop idx d fuel p (line ++ [p]) (insert p visited) := by
  simp only [traceLoop, h]

theorem traceLoop_succ_none (idx : Int × Int → List Point) (d : Int) (fuel : Nat)
    (last : Point) (line : List Point) (visited : Finset Point)
    (h : find_next_point last idx visited d = none) :
    traceLoop idx d (fuel + 1) last line visited = (line, visited) := by
  simp only [traceLoop, h]

theorem componentsLoop_nil (idx : Int × Int → List Point) (d : Int) (fuel : Nat)
    (lines : List (List Point)) (visited : Finset Point) :
    componentsLoop idx d fuel [] lines visited = (lines, visited) := rfl

theorem componentsLoop_cons_visited (idx : Int × Int → List Point) (d : Int)
    (fuel : Nat) (p : Point) (rest : List Point) (lines : List (List Point))
    (visited : Finset Point) (h : p ∈ visited) :
    componentsLoop idx d fuel (p :: rest) lines visited =
      componentsLoop idx d fuel rest lines visited := by
  simp only [componentsLoop, if_pos h]

theorem componentsLoop_cons_new (idx : Int × Int → List Point) (d : Int)
    (fuel : Nat) (p : Point) (rest : List Point) (lines : List (List Point))
    (visited : Finset Point) (h : p ∉ visited) :
    componentsLoop idx d fuel (p :: rest) lines visited =
      componentsLoop idx d fuel rest
        (if 2 < (trace_line p idx visited d fuel).1.length then
          lines ++ [(trace_line p idx visited d fuel).1] else lines)
        (trace_line p idx visited d fuel).2 := by
  simp only [componentsLoop, if_neg h]

theorem traceLoop_rest (a b c : Point) (d : Int) (hd0 : 0 ≤ d) (hd2 : d ≤ 46340)
    (m q r : Point) (hperm : [m, q, r].Perm [a, b, c]) (hnd : [m, q, r].Nodup)
    (hqr : q.distance_squared r ≤ d * d) :
    traceLoop (build_spatial_index [a, b, c] (max d 1)) d 3 q [m, q]
      (insert q (insert m ∅)) = ([m, q, r], insert r (insert q (insert m ∅))) := by
  obtain ⟨hmq, hmr, hqr2⟩ : m ≠ q ∧ m ≠ r ∧ q ≠ r := by
    simp at hnd
    tauto
  obtain ⟨hsome, hnone⟩ :=
    find_next_point_spec [a, b, c] q (insert q (insert m ∅)) d hd0 hd2
  have hrmem : r ∈ [a, b, c] := hperm.mem_iff.mp (by simp)
  have hrnv : r ∉ insert q (insert m (∅ : Finset Point)) := by
    simp [Ne.symm hqr2, Ne.symm hmr]
  have hne : ¬ (find_next_point q (build_spatial_index [a, b, c] (max d 1))
      (insert q (insert m ∅)) d = none) := by
    intro h
    exact (hnone.mp h r hrmem hrnv) hqr
  cases hf : find_next_point q (build_spatial_index [a, b, c] (max d 1))
      (insert q (insert m ∅)) d with
  | none => exact absurd hf hne
  | some q2 =>
    obtain ⟨hq2mem, hq2nv, -, -⟩ := hsome q2 hf
    have hq2 : q2 = r := by
      have hq2l : q2 ∈ [m, q, r] := hperm.mem_iff.mpr hq2mem
      simp at hq2l hq2nv
      tauto
    rw [hq2] at hf
    rw [show (3 : Nat) = 2 + 1 from rfl,
      traceLoop_succ_some (build_spatial_index [a, b, c] (max d 1)) d 2 q [m, q]
        (insert q (insert m ∅)) r hf]
    obtain ⟨hsome2, -⟩ :=
      find_next_point_spec [a, b, c] r (insert r (insert q (insert m ∅))) d hd0 hd2
    have hfin : find_next_point r (build_spatial_index [a, b, c] (max d 1))
        (insert r (insert q (insert m ∅))) d = none := by
      cases hf2 : find_next_point r (build_spatial_index [a, b, c] (max d 1))
          (insert r (insert q (insert m ∅))) d with
      | none => rfl
      | some q3 =>
        obtain ⟨hq3mem, hq3nv, -, -⟩ := hsome2 q3 hf2
        have hq3l : q3 ∈ [m, q, r] := hperm.mem_iff.mpr hq3mem
        simp at hq3l hq3nv
        tauto
    rw [show (2 : Nat) = 1 + 1 from rfl,
      traceLoop_succ_none (build_spatial_index [a, b, c] (max d 1)) d 1 r
        ([m, q] ++ [r]) (insert r (insert q (insert m ∅))) hfin]
    rfl

set_option maxHeartbeats 1600000 in
/-- Claim C9: for three distinct points with pairwise squared distances within
max_distance squared (in particular the three corners of any triangle, an
equilateral one included, of side below max_distance), tracing produces a
single path containing all three points, starting at the smallest point in the
(y, x) ordering used by the tracer. -/
theorem triangle_single_path (a b c : Point) (d : Int)
    (hd1 : 1 ≤ d) (hd2 : d ≤ 46340)
    (hab : a ≠ b) (hac : a ≠ c) (hbc : b ≠ c)
    (dab : a.distance_squared b ≤ d * d)
    (dac : a.distance_squared c ≤ d * d)
    (dbc : b.distance_squared c ≤ d * d) :
    ∃ l, find_connected_components [a, b, c] d = [l] ∧
      l.toFinset = ({a, b, c} : Finset Point) ∧ l.length = 3 ∧
      ∃ m, l.head? = some m ∧ ∀ p ∈ ({a, b, c} : Finset Point), pointLe m p := by
  have hd0 : (0 : Int) ≤ d := by omega
  have hnd3 : [a, b, c].Nodup := by simp [hab, hac, hbc]
  have hpair : ∀ p ∈ [a, b, c], ∀ q ∈ [a, b, c], p ≠ q →
      p.distance_squared q ≤ d * d := by
    intro p hp q hq hne
    fin_cases hp <;> fin_cases hq <;>
      first
        | exact absurd rfl hne
        | assumption
        | (rw [distance_squared_comm]; assumption)
  have hlen : (List.insertionSort pointLe [a, b, c]).length = 3 :=
    (List.perm_insertionSort pointLe [a, b, c]).length_eq
  obtain ⟨m, r1, r2, hsorted⟩ := List.length_eq_three.mp hlen
  have hLperm : [m, r1, r2].Perm [a, b, c] := by
    rw [← hsorted]
    exact List.perm_insertionSort pointLe [a, b, c]
  have hLnd : [m, r1, r2].Nodup := hLperm.symm.nodup hnd3
  obtain ⟨hmr1, hmr2, hr12⟩ : m ≠ r1 ∧ m ≠ r2 ∧ r1 ≠ r2 := by
    simp at hLnd
    tauto
  have hmmem : m ∈ [a, b, c] := hLperm.mem_iff.mp (by simp)
  have hr1mem : r1 ∈ [a, b, c] := hLperm.mem_iff.mp (by simp)
  have hr2mem : r2 ∈ [a, b, c] := hLperm.mem_iff.mp (by simp)
  have hsortedProp : List.Sorted pointLe (List.insertionSort pointLe [a, b, c]) :=
    List.sorted_insertionSort pointLe [a, b, c]
  rw [hsorted] at hsortedProp
  have hmin : ∀ p ∈ ({a, b, c} : Finset Point), pointLe m p := by
    intro p hp
    have hpl : p ∈ [m, r1, r2] := by
      refine hLperm.mem_iff.mpr ?_
      simp only [Finset.mem_insert, Finset.mem_singleton] at hp
      simp [hp]
    have hml : p = m ∨ p = r1 ∨ p = r2 := by simpa using hpl
    rcases hml with rfl | rfl | rfl
    · unfold pointLe
      omega
    · exact (List.sorted_cons.mp hsortedProp).1 p (by simp)
    · exact (List.sorted_cons.mp hsortedProp).1 p (by simp)
  obtain ⟨hsome1, hnone1⟩ := find_next_point_spec [a, b, c] m (insert m ∅) d hd0 hd2
  have hr1nv : r1 ∉ (insert m ∅ : Finset Point) := by simp [Ne.symm hmr1]
  have hne1 : ¬ (find_next_point m (build_spatial_index [a, b, c] (max d 1))
      (insert m ∅) d = none) := by
    intro h
    exact (hnone1.mp h r1 hr1mem hr1nv) (hpair m hmmem r1 hr1mem hmr1)
  cases hf1 : find_next_point m (build_spatial_index [a, b, c] (max d 1))
      (insert m ∅) d with
  | none => exact absurd hf1 hne1
  | some q1 =>
    obtain ⟨hq1mem, hq1nv, -, -⟩ := hsome1 q1 hf1
    have hq1cases : q1 = r1 ∨ q1 = r2 := by
      have hq1l : q1 ∈ [m, r1, r2] := hLperm.mem_iff.mpr hq1mem
      simp at hq1l hq1nv
      tauto
    have htrace : ∃ t, [m, q1, t].Perm [a, b, c] ∧
        trace_line m (build_spatial_index [a, b, c] (max d 1)) ∅ d 4 =
          ([m, q1, t], insert t (insert q1 (insert m ∅))) := by
      have hstep1 : trace_line m (build_spatial_index [a, b, c] (max d 1)) ∅ d 4 =
          traceLoop (build_spatial_index [a, b, c] (max d 1)) d 3 q1 [m, q1]
            (insert q1 (insert m ∅)) := by
        unfold trace_line
        rw [show (4 : Nat) = 3 + 1 from rfl,
          traceLoop_succ_some (build_spatial_index [a, b, c] (max d 1)) d 3 m [m]
            (insert m ∅) q1 hf1, List.singleton_append]
      rcases hq1cases with rfl | rfl
      · refine ⟨r2, hLperm, ?_⟩
        rw [hstep1]
        exact traceLoop_rest a b c d hd0 hd2 m q1 r2 hLperm hLnd
          (hpair q1 hr1mem r2 hr2mem hr12)
      · have hperm2 : [m, q1, r1].Perm [a, b, c] := by
          refine List.Perm.trans ?_ hLperm
          exact List.Perm.cons m (List.Perm.swap r1 q1 [])
        refine ⟨r1, hperm2, ?_⟩
        rw [hstep1]
        exact traceLoop_rest a b c d hd0 hd2 m q1 r1 hperm2
          (hperm2.symm.nodup hnd3)
          (hpair q1 hr2mem r1 hr1mem (Ne.symm hr12))
    obtain ⟨t, hperm3, htr⟩ := htrace
    refine ⟨[m, q1, t], ?_, ?_, rfl, m, rfl, hmin⟩
    · have hr1v : r1 ∈ insert t (insert q1 (insert m (∅ : Finset Point))) := by
        have hr1l : r1 ∈ [m, q1, t] := hperm3.mem_iff.mpr hr1mem
        simp at hr1l ⊢
        tauto
      have hr2v : r2 ∈ insert t (insert q1 (insert m (∅ : Finset Point))) := by
        have hr2l : r2 ∈ [m, q1, t] := hperm3.mem_iff.mpr hr2mem
        simp at hr2l ⊢
        tauto
      unfold find_connected_components
      rw [hsorted]
      have hflen : ([a, b, c] : List Point).length + 1 = 4 := rfl
      rw [hflen]
      rw [componentsLoop_cons_new _ _ _ _ _ _ _ (by simp : ¬ m ∈ (∅ : Finset Point)),
        htr]
      dsimp only
      rw [if_pos (by norm_num : 2 < ([m, q1, t] : List Point).length)]
      rw [componentsLoop_cons_visited _ _ _ _ _ _ _ hr1v,
        componentsLoop_cons_visited _ _ _ _ _ _ _ hr2v, componentsLoop_nil]
      rfl
    · rw [List.toFinset_eq_of_perm _ _ hperm3]
      simp

theorem triangle_single_path_witness :
    ∃ l, find_connected_components [Point.mk 0 0, Point.mk 1 0, Point.mk 0 1] 3 =
        [l] ∧
      l.toFinset = ({Point.mk 0 0, Point.mk 1 0, Point.mk 0 1} : Finset Point) ∧
      l.length = 3 ∧
      ∃ m, l.head? = some m ∧
        ∀ p ∈ ({Point.mk 0 0, Point.mk 1 0, Point.mk 0 1} : Finset Point),
          pointLe m p :=
  triangle_single_path (Point.mk 0 0) (Point.mk 1 0) (Point.mk 0 1) 3
    (by decide) (by decide) (by decide) (by decide) (by decide) (by decide)
    (by decide) (by decide)

theorem foldl_congr_fn {α β : Type} (f g : β → α → β) (l : List α)
    (h : ∀ st, ∀ a ∈ l, f st a = g st a) : ∀ st, l.foldl f st = l.foldl g st := by
  induction l with
  | nil => intro st; rfl
  | cons a l ih =>
    intro st
    rw [List.foldl_cons, List.foldl_cons, h st a (List.mem_cons_self a l)]
    exact ih (fun st2 b hb => h st2 b (List.mem_cons_of_mem a hb)) _

theorem tdiv_bound16 (x g : Int) (hg : 1 ≤ g) (h1 : -16383 ≤ x) (h2 : x ≤ 16383) :
    -16383 ≤ x.tdiv g ∧ x.tdiv g ≤ 16383 := by
  rcases le_or_lt 0 x with hx | hx
  · rw [Int.tdiv_eq_ediv hx (by omega)]
    have ha : 0 ≤ x / g := Int.ediv_nonneg hx (by omega)
    have hb : x / g ≤ x := Int.ediv_le_self g hx
    omega
  · rw [tdiv_neg_eq, Int.tdiv_eq_ediv (by omega : (0:Int) ≤ -x) (by omega)]
    have ha : 0 ≤ (-x) / g := Int.ediv_nonneg (by omega) (by omega)
    have hb : (-x) / g ≤ -x := Int.ediv_le_self g (by omega)
    omega

theorem distance_squared_i32_eq (p q : Point) (hp : Bounded16 p) (hq : Bounded16 q) :
    distance_squared_i32 p q = p.distance_squared q := by
  obtain ⟨h1, h2, h3, h4⟩ := hp
  obtain ⟨h5, h6, h7, h8⟩ := hq
  have hdx1 : -32766 ≤ p.x - q.x := by omega
  have hdx2 : p.x - q.x ≤ 32766 := by omega
  have hdy1 : -32766 ≤ p.y - q.y := by omega
  have hdy2 : p.y - q.y ≤ 32766 := by omega
  have hx0 : 0 ≤ (p.x - q.x) * (p.x - q.x) := mul_self_nonneg _
  have hy0 : 0 ≤ (p.y - q.y) * (p.y - q.y) := mul_self_nonneg _
  have hxb : (p.x - q.x) * (p.x - q.x) ≤ 1073610756 := by nlinarith
  have hyb : (p.y - q.y) * (p.y - q.y) ≤ 1073610756 := by nlinarith
  unfold distance_squared_i32 Point.distance_squared
  rw [wrap32_eq (p.x - q.x) (by omega) (by omega),
    wrap32_eq (p.y - q.y) (by omega) (by omega),
    wrap32_eq ((p.x - q.x) * (p.x - q.x)) (by omega) (by omega),
    wrap32_eq ((p.y - q.y) * (p.y - q.y)) (by omega) (by omega),
    wrap32_eq _ (by omega) (by omega)]

theorem fnpInner_i32_eq (current : Point) (visited : Finset Point) (d : Int)
    (hd0 : 0 ≤ d) (hd1 : d ≤ 46340) (hc : Bounded16 current) (p : Point)
    (hp : Bounded16 p) (st : Option Point × Int) :
    fnpInner_i32 current visited d st p = fnpInner current visited d st p := by
  have hdd0 : 0 ≤ d * d := mul_self_nonneg d
  have hddb : d * d ≤ 2147395600 := by nlinarith
  unfold fnpInner_i32 fnpInner
  rw [distance_squared_i32_eq current p hc hp, wrap32_eq (d * d) (by omega) (by omega)]

theorem find_next_point_i32_agree (points : List Point) (current : Point)
    (visited : Finset Point) (d : Int) (hd0 : 0 ≤ d) (hd1 : d ≤ 46340)
    (hc : Bounded16 current) (hpts : ∀ p ∈ points, Bounded16 p) :
    find_next_point_i32 current (build_spatial_index points (max d 1)) visited d =
      find_next_point current (build_spatial_index points (max d 1)) visited d := by
  have hg : (1 : Int) ≤ max d 1 := le_max_right d 1
  obtain ⟨htx1, htx2⟩ := tdiv_bound16 current.x (max d 1) hg hc.1 hc.2.1
  obtain ⟨hty1, hty2⟩ := tdiv_bound16 current.y (max d 1) hg hc.2.2.1 hc.2.2.2
  unfold find_next_point_i32 find_next_point
  congr 1
  apply foldl_congr_fn
  intro st o ho
  have hosmall : (-1 ≤ o.1 ∧ o.1 ≤ 1) ∧ (-1 ≤ o.2 ∧ o.2 ≤ 1) := by
    fin_cases ho <;> exact ⟨⟨by norm_num, by norm_num⟩, ⟨by norm_num, by norm_num⟩⟩
  rw [wrap32_eq (current.x.tdiv (max d 1) + o.1) (by omega) (by omega),
    wrap32_eq (current.y.tdiv (max d 1) + o.2) (by omega) (by omega)]
  exact foldl_congr_fn _ _ _
    (fun st2 p hp2 => fnpInner_i32_eq current visited d hd0 hd1 hc p
      (hpts p (List.mem_filter.mp hp2).1) st2) st

/-- Claim C10 counterexample: at max_distance 46340 with the single indexed
point (92679, 0) and current point (-46339, 0), the true squared distance
19326004324 exceeds max_distance squared, yet the i32 product wraps to
2146135140, which passes the radius test, and the release build returns the
point (debug builds panic on the overflow); so the search is not sound on all
i32 inputs. -/
theorem find_next_point_overflow_counterexample :
    find_next_point_i32 (Point.mk (-46339) 0)
        (build_spatial_index [Point.mk 92679 0] (max 46340 1)) ∅ 46340 =
      some (Point.mk 92679 0) ∧
    ¬ (Point.mk (-46339) 0).distance_squared (Point.mk 92679 0) ≤ 46340 * 46340 := by
  exact ⟨by decide, by decide⟩

/-- Claim C10 (amended): over points and current positions with coordinates of
magnitude at most 16383 - where every i32 intermediate of the distance
arithmetic is exact - and 0 <= max_distance <= 46340, the 3 x 3 cell-block
search of find_next_point over the index built with cell size
max(max_distance, 1) is sound and complete: it returns a point of the set that
is unvisited, within the radius, and of globally minimal squared distance
among all such points, and it returns none exactly when no unvisited point of
the set lies within the radius. -/
theorem find_next_point_sound_complete_bounded (points : List Point)
    (current : Point) (visited : Finset Point) (d : Int)
    (hd0 : 0 ≤ d) (hd1 : d ≤ 46340)
    (hc : Bounded16 current) (hpts : ∀ p ∈ points, Bounded16 p) :
    (∀ q, find_next_point_i32 current (build_spatial_index points (max d 1))
        visited d = some q →
      q ∈ points ∧ q ∉ visited ∧ current.distance_squared q ≤ d * d ∧
      ∀ p ∈ points, p ∉ visited → current.distance_squared p ≤ d * d →
        current.distance_squared q ≤ current.distance_squared p) ∧
    (find_next_point_i32 current (build_spatial_index points (max d 1)) visited d =
        none ↔
      ∀ p ∈ points, p ∉ visited → ¬ current.distance_squared p ≤ d * d) := by
  rw [find_next_point_i32_agree points current visited d hd0 hd1 hc hpts]
  exact find_next_point_spec points current visited d hd0 hd1

theorem find_next_point_sound_complete_bounded_witness :
    (∀ q, find_next_point_i32 (Point.mk 0 0)
        (build_spatial_index [Point.mk 0 0, Point.mk 1 1] (max 3 1)) ∅ 3 = some q →
      q ∈ [Point.mk 0 0, Point.mk 1 1] ∧ q ∉ (∅ : Finset Point) ∧
      (Point.mk 0 0).distance_squared q ≤ 3 * 3 ∧
      ∀ p ∈ [Point.mk 0 0, Point.mk 1 1], p ∉ (∅ : Finset Point) →
        (Point.mk 0 0).distance_squared p ≤ 3 * 3 →
        (Point.mk 0 0).distance_squared q ≤ (Point.mk 0 0).distance_squared p) ∧
    (find_next_point_i32 (Point.mk 0 0)
        (build_spatial_index [Point.mk 0 0, Point.mk 1 1] (max 3 1)) ∅ 3 = none ↔
      ∀ p ∈ [Point.mk 0 0, Point.mk 1 1], p ∉ (∅ : Finset Point) →
        ¬ (Point.mk 0 0).distance_squared p ≤ 3 * 3) :=
  find_next_point_sound_complete_bounded [Point.mk 0 0, Point.mk 1 1]
    (Point.mk 0 0) ∅ 3 (by decide) (by decide) (by decide) (by decide)

theorem trace_partition_witness :
    (find_connected_components [Point.mk 0 0, Point.mk 1 0, Point.mk 2 0]
        1).flatten.Nodup ∧
    (find_connected_components [Point.mk 0 0, Point.mk 1 0, Point.mk 2 0]
        1).flatten.toFinset =
      [Point.mk 0 0, Point.mk 1 0, Point.mk 2 0].toFinset \
        ((allTraceLines [Point.mk 0 0, Point.mk 1 0, Point.mk 2 0] 1).filter
          (fun l => decide (l.length ≤ 2))).flatten.toFinset :=
  trace_partition [Point.mk 0 0, Point.mk 1 0, Point.mk 2 0] 1 (by decide)

theorem tile_roundtrip_witness :
    ∃ out, scale_image_to_region (fun _ w h => ⟨w, h, fun _ _ => 0⟩)
          (fun _ w h => ⟨w, h, fun _ _ => 0⟩) (uniformGrid 10 10 0) (0, 0) (10, 10)
          ScalingMode.tile = some out ∧
      out.width = (uniformGrid 10 10 0).width ∧
      out.height = (uniformGrid 10 10 0).height ∧
      ∀ x y, x < (uniformGrid 10 10 0).width → y < (uniformGrid 10 10 0).height →
        out.pix x y = (uniformGrid 10 10 0).pix x y :=
  tile_roundtrip _ _ (uniformGrid 10 10 0) (0, 0) (10, 10) (by decide) (by decide)

end Drawrs
